import Mathlib

/-!
Verification of the peer persistence layer of reth-crawler.

The development shallowly embeds the three `PeerDB` backends of
`src/db/src/db.rs` (the DynamoDB-backed `AwsPeerDB`, the map-backed
`InMemoryPeerDB`, and the SQLite-backed `SqlPeerDB`) as pure Lean
functions over explicit store states, and proves the spec's testable
properties about them.

Conventions of the embedding:
- async functions become pure state-passing functions; fallible calls
  return `Except` of the crate's error enums;
- timestamps are kept as strings, compared byte-lexicographically the
  way SQLite's BINARY collation and DynamoDB string comparison do; the
  cutoff instants that the Rust code derives from the wall clock
  (`Utc::now()` minus a duration, rendered with `to_string`) are passed
  in as already-rendered string parameters;
- the process abort caused by `Option::unwrap` on `None` is modelled by
  an outer `Option` layer: `none` means the thread panicked.
-/

/-- Modelled from the spec: the `PeerData` record of the crate's `types`
module (not present under `src/`), §3 of the spec, with field usage
confirmed against `db.rs`. -/
structure PeerData where
  id : String
  address : String
  client_version : String
  enode_url : String
  tcp_port : Int
  chain : String
  genesis_block_hash : String
  best_block : String
  total_difficulty : String
  country : String
  city : String
  last_seen : String
  capabilities : List String
  eth_version : Int
deriving DecidableEq, Repr

/-- Modelled from the spec: the `AddItemError` enum of the crate's `types`
module, with the variants used in `db.rs` (payloads elided). -/
inductive AddItemError where
  | AwsAddItemError
  | SqlAddItemError
  | InMemoryDbAddItemError
deriving DecidableEq, Repr

/-- Modelled from the spec: the `ScanTableError` enum of the crate's
`types` module, with the variants used in `db.rs`. -/
inductive ScanTableError where
  | AwsScanError
  | SqlScanError
  | InMemoryDbScanError
deriving DecidableEq, Repr

/-- Modelled from the spec: the `QueryItemError` enum of the crate's
`types` module, with the variants used in `db.rs`. -/
inductive QueryItemError where
  | AwsQueryItemError
  | SqlQueryItemError
  | InMemoryDbQueryItemError
deriving DecidableEq, Repr

/-- Modelled from the spec: the `DeleteItemError` enum of the crate's
`types` module, with the variant used in `db.rs`. -/
inductive DeleteItemError where
  | SqlDeleteItemError
deriving DecidableEq, Repr

/-- Embedding of Rust `i32 as usize` (sign extension to 64 bits), used
for the `take(page_size as usize)` call in `InMemoryPeerDB::all_peers`. -/
def i32AsUsize (k : Int) : Nat := (k % (2 ^ 64)).toNat

/-- Embedding of Rust `str::split(",")` at the character-list level:
splits on every comma, always producing at least one piece. -/
def splitCommaChars : List Char → List (List Char)
  | [] => [[]]
  | c :: rest =>
    let r := splitCommaChars rest
    if c = ',' then [] :: r
    else
      match r with
      | [] => [[c]]
      | cur :: rs => (c :: cur) :: rs

/-- Embedding of Rust `str::split(",").map(to_string).collect()`. -/
def splitComma (s : String) : List String :=
  (splitCommaChars s.data).map (fun l => String.mk l)

/-- Embedding of Rust `Vec::join(",")`, the serialization of the
`capabilities` field used by `SqlPeerDB::add_peer`. -/
def joinComma : List String → String
  | [] => ""
  | [s] => s
  | s :: rest => s ++ "," ++ joinComma rest

/-- Byte-lexicographic comparison of character lists, the order SQLite's
BINARY collation and DynamoDB use for TEXT values (UTF-8 preserves code
point order). -/
def charListLt : List Char → List Char → Bool
  | [], [] => false
  | [], _ :: _ => true
  | _ :: _, [] => false
  | a :: as, b :: bs => if a < b then true else if b < a then false else charListLt as bs

/-- Keyed upsert on a list: replace the element with the same key if one
exists, append otherwise.  This is the common shape of Rust
`HashMap::insert`, SQLite `INSERT OR REPLACE` on the primary key, and
DynamoDB `put_item` on the table key, in the association-list model. -/
def upsertBy {α κ : Type} [DecidableEq κ] (key : α → κ) (x : α) : List α → List α
  | [] => [x]
  | y :: ys => if key y = key x then x :: ys else y :: upsertBy key x ys

/-! ## The in-memory backend (`InMemoryPeerDB`) -/

/-- State of `InMemoryPeerDB`: the `HashMap<String, PeerData>` behind the
`RwLock`, modelled as an association list in iteration order, plus the
lock's poisoned flag. -/
structure InMemoryPeerDB where
  poisoned : Bool
  db : List (String × PeerData)
deriving DecidableEq, Repr

/-- Embedding of `InMemoryPeerDB::add_peer`: take the write lock (fails
if poisoned), insert keyed by `peer_data.id`; the `ttl` argument is
ignored. -/
def im_add_peer (s : InMemoryPeerDB) (peer_data : PeerData) (_ttl : Option Int) :
    InMemoryPeerDB × Except AddItemError Unit :=
  if s.poisoned then (s, Except.error AddItemError.InMemoryDbAddItemError)
  else ({ s with db := upsertBy Prod.fst (peer_data.id, peer_data) s.db }, Except.ok ())

/-- Embedding of `InMemoryPeerDB::all_peers`: default page size 50, take
up to `page_size as usize` values in iteration order, no filtering. -/
def im_all_peers (s : InMemoryPeerDB) (page_size : Option Int) :
    Except ScanTableError (List PeerData) :=
  if s.poisoned then Except.error ScanTableError.InMemoryDbScanError
  else Except.ok ((s.db.map Prod.snd).take (i32AsUsize ((page_size.getD 50))))

/-- Embedding of `InMemoryPeerDB::node_by_id`: filter entries whose key
equals `id`; always wraps the list in `Some`. -/
def im_node_by_id (s : InMemoryPeerDB) (id : String) :
    Except QueryItemError (Option (List PeerData)) :=
  if s.poisoned then Except.error QueryItemError.InMemoryDbQueryItemError
  else Except.ok (some ((s.db.filter (fun kv => kv.1 == id)).map Prod.snd))

/-- Embedding of `InMemoryPeerDB::node_by_ip`: filter entries whose
value's `address` equals `ip`; always wraps the list in `Some`. -/
def im_node_by_ip (s : InMemoryPeerDB) (ip : String) :
    Except QueryItemError (Option (List PeerData)) :=
  if s.poisoned then Except.error QueryItemError.InMemoryDbQueryItemError
  else Except.ok (some ((s.db.filter (fun kv => kv.2.address == ip)).map Prod.snd))

/-! ## The embedded SQLite backend (`SqlPeerDB`) -/

/-- A dynamically-typed SQLite value, as stored in a column of the
`eth_peer_data` table (the schema marks `country`, `city`,
`capabilities` and `eth_version` nullable, so NULLs can occur). -/
inductive SqlValue where
  | vNull
  | vText (s : String)
  | vInt (n : Int)
deriving DecidableEq, Repr

/-- Embedding of rusqlite `row.get::<String>`: succeeds only on a TEXT
value (`InvalidColumnType` otherwise). -/
def SqlValue.getText : SqlValue → Option String
  | .vText s => some s
  | _ => none

/-- Embedding of rusqlite `row.get::<i64>`: succeeds only on an INTEGER
value. -/
def SqlValue.getInt : SqlValue → Option Int
  | .vInt n => some n
  | _ => none

/-- SQLite comparison `x < y` as used in the `WHERE` clauses of
`db.rs`: a comparison against NULL is not true, INTEGER sorts before
TEXT, TEXT compares byte-lexicographically. -/
def SqlValue.sqlLt : SqlValue → SqlValue → Bool
  | .vNull, _ => false
  | _, .vNull => false
  | .vInt a, .vInt b => decide (a < b)
  | .vInt _, .vText _ => true
  | .vText _, .vInt _ => false
  | .vText a, .vText b => charListLt a.data b.data

/-- One row of the `eth_peer_data` table, columns in `SELECT *` order. -/
structure SqlRow where
  id : SqlValue
  ip : SqlValue
  client_version : SqlValue
  enode_url : SqlValue
  port : SqlValue
  chain : SqlValue
  genesis_hash : SqlValue
  best_block : SqlValue
  total_difficulty : SqlValue
  country : SqlValue
  city : SqlValue
  last_seen : SqlValue
  capabilities : SqlValue
  eth_version : SqlValue
deriving DecidableEq, Repr

/-- The state of the embedded store: the rows of `eth_peer_data`. -/
abbrev SqlDB := List SqlRow

/-- Embedding of the row written by `SqlPeerDB::add_peer`: every field of
the record bound as a parameter, `capabilities` joined with commas. -/
def encodeRow (p : PeerData) : SqlRow :=
  { id := SqlValue.vText p.id
    ip := SqlValue.vText p.address
    client_version := SqlValue.vText p.client_version
    enode_url := SqlValue.vText p.enode_url
    port := SqlValue.vInt p.tcp_port
    chain := SqlValue.vText p.chain
    genesis_hash := SqlValue.vText p.genesis_block_hash
    best_block := SqlValue.vText p.best_block
    total_difficulty := SqlValue.vText p.total_difficulty
    country := SqlValue.vText p.country
    city := SqlValue.vText p.city
    last_seen := SqlValue.vText p.last_seen
    capabilities := SqlValue.vText (joinComma p.capabilities)
    eth_version := SqlValue.vInt p.eth_version }

/-- Embedding of the `query_map` closure shared by `all_peers`,
`node_by_id` and `node_by_ip`: decode the fourteen columns of a row into
a `PeerData`, short-circuiting on the first column whose type does not
match (the `?` operator), and split `capabilities` on commas. -/
def decodeRow (row : SqlRow) : Option PeerData :=
  Option.bind row.id.getText fun id =>
  Option.bind row.ip.getText fun address =>
  Option.bind row.client_version.getText fun client_version =>
  Option.bind row.enode_url.getText fun enode_url =>
  Option.bind row.port.getInt fun tcp_port =>
  Option.bind row.chain.getText fun chain =>
  Option.bind row.genesis_hash.getText fun genesis_block_hash =>
  Option.bind row.best_block.getText fun best_block =>
  Option.bind row.total_difficulty.getText fun total_difficulty =>
  Option.bind row.country.getText fun country =>
  Option.bind row.city.getText fun city =>
  Option.bind row.last_seen.getText fun last_seen =>
  Option.bind row.capabilities.getText fun capsStr =>
  Option.bind row.eth_version.getInt fun eth_version =>
  some { id := id, address := address, client_version := client_version,
         enode_url := enode_url, tcp_port := tcp_port, chain := chain,
         genesis_block_hash := genesis_block_hash, best_block := best_block,
         total_difficulty := total_difficulty, country := country, city := city,
         last_seen := last_seen, capabilities := splitComma capsStr,
         eth_version := eth_version }

/-- Embedding of the row loop `for row in rows { if let Ok(p) = row {
peers.push(p) } }`: keep the successfully decoded rows, silently drop
the failures. -/
def collectOk : List (Option PeerData) → List PeerData
  | [] => []
  | some p :: rest => p :: collectOk rest
  | none :: rest => collectOk rest

/-- Embedding of `SqlPeerDB::add_peer`: `INSERT OR REPLACE` keyed by the
`id` primary-key column; the `ttl` argument is ignored. -/
def sql_add_peer (db : SqlDB) (peer_data : PeerData) (_ttl : Option Int) :
    SqlDB × Except AddItemError Unit :=
  (upsertBy SqlRow.id (encodeRow peer_data) db, Except.ok ())

/-- Embedding of `SqlPeerDB::all_peers`: `SELECT * from eth_peer_data`
with no `LIMIT` and no freshness filter — the `page_size` argument is
never used by the query. -/
def sql_all_peers (db : SqlDB) (_page_size : Option Int) :
    Except ScanTableError (List PeerData) :=
  Except.ok (collectOk (db.map decodeRow))

/-- Embedding of `SqlPeerDB::node_by_id`: `SELECT * ... WHERE id = ?1`
with the text parameter `id`, decoded rows wrapped in `Some`. -/
def sql_node_by_id (db : SqlDB) (id : String) :
    Except QueryItemError (Option (List PeerData)) :=
  Except.ok (some (collectOk ((db.filter (fun r => r.id == SqlValue.vText id)).map decodeRow)))

/-- Embedding of `SqlPeerDB::node_by_ip`: `SELECT * ... WHERE ip = ?1`
with the text parameter `ip`, decoded rows wrapped in `Some`. -/
def sql_node_by_ip (db : SqlDB) (ip : String) :
    Except QueryItemError (Option (List PeerData)) :=
  Except.ok (some (collectOk ((db.filter (fun r => r.ip == SqlValue.vText ip)).map decodeRow)))

/-- Embedding of `SqlPeerDB::prune_peers`: `DELETE FROM eth_peer_data
WHERE last_seen < ?1` with `cutoff` the rendered instant
`now - time_validity days`.  Returns the remaining rows, the affected-row
count that `conn.execute` reports (the code only logs it), and the
caller-visible result, which on success is the unit value. -/
def sql_prune_peers (db : SqlDB) (cutoff : String) :
    SqlDB × Nat × Except DeleteItemError Unit :=
  let deleted := db.filter (fun r => SqlValue.sqlLt r.last_seen (SqlValue.vText cutoff))
  let remaining := db.filter (fun r => ! SqlValue.sqlLt r.last_seen (SqlValue.vText cutoff))
  (remaining, deleted.length, Except.ok ())

/-! ## The cloud backend (`AwsPeerDB`) -/

/-- DynamoDB attribute values as built in `AwsPeerDB::add_peer`: string
attributes, number attributes carried as decimal strings, and the
capability list (a list of string attributes). -/
inductive AttributeValue where
  | S (s : String)
  | N (s : String)
  | L (l : List String)
deriving DecidableEq, Repr

/-- One DynamoDB item: attribute name/value pairs. -/
abbrev CloudItem := List (String × AttributeValue)

/-- The state of the `eth-peer-data` table: its items. -/
abbrev CloudTable := List CloudItem

/-- Embedding of the item built by `AwsPeerDB::add_peer` once the `ttl`
unwrap has succeeded: the full attribute set written on every call,
numbers rendered with `to_string`. -/
def awsItem (p : PeerData) (region : String) (ttl : Int) : CloudItem :=
  [("peer-id", AttributeValue.S p.id),
   ("peer-ip", AttributeValue.S p.address),
   ("client_version", AttributeValue.S p.client_version),
   ("enode_url", AttributeValue.S p.enode_url),
   ("port", AttributeValue.N (toString p.tcp_port)),
   ("chain", AttributeValue.S p.chain),
   ("country", AttributeValue.S p.country),
   ("city", AttributeValue.S p.city),
   ("capabilities", AttributeValue.L p.capabilities),
   ("eth_version", AttributeValue.N (toString p.eth_version)),
   ("last_seen", AttributeValue.S p.last_seen),
   ("source_region", AttributeValue.S region),
   ("genesis_block_hash", AttributeValue.S p.genesis_block_hash),
   ("best_block", AttributeValue.S p.best_block),
   ("total_difficulty", AttributeValue.S p.total_difficulty),
   ("ttl", AttributeValue.N (toString ttl))]

/-- The value of an item's `peer-id` attribute, the table's primary
key. -/
def itemKey (item : CloudItem) : Option AttributeValue :=
  (List.find? (fun kv => kv.1 == "peer-id") item).map Prod.snd

/-- Modelled from the spec: DynamoDB `put_item` semantics (the service
side is not part of this repository) — a full overwrite of the item
stored under the same primary key, an insert if the key is new. -/
def cloudPutItem (item : CloudItem) (table : CloudTable) : CloudTable :=
  upsertBy itemKey item table

/-- Whether an item passes the scan filter expression
`last_seen > :last_seen_parameter`: its `last_seen` attribute is a
string strictly greater than the cutoff. -/
def itemFresh (item : CloudItem) (cutoff : String) : Bool :=
  match List.find? (fun kv => kv.1 == "last_seen") item with
  | some (_, AttributeValue.S s) => charListLt cutoff.data s.data
  | _ => false

/-- Modelled from the spec: the managed store's filtered scan (server
side, not part of this repository) — items passing the filter
expression, bounded by the caller-supplied limit. -/
def cloudScan (table : CloudTable) (cutoff : String) (limit : Nat) : CloudTable :=
  (table.filter (fun it => itemFresh it cutoff)).take limit

/-- Embedding of `AwsPeerDB::add_peer`.  The outer `Option` models the
process abort: the code calls `ttl.unwrap()` while building the
attribute set, so `ttl = none` panics (`none` result) before anything is
sent.  `netOk` abstracts the network round trip; on failure the error is
converted into the `AddItemError` family. -/
def aws_add_peer (netOk : Bool) (region : String) (table : CloudTable)
    (peer_data : PeerData) (ttl : Option Int) :
    Option (CloudTable × Except AddItemError Unit) :=
  match ttl with
  | none => none
  | some t =>
    if netOk then some (cloudPutItem (awsItem peer_data region t) table, Except.ok ())
    else some (table, Except.error AddItemError.AwsAddItemError)

/-- Embedding of `AwsPeerDB::all_peers`: default page size 1000, scan
filtered by `last_seen > cutoff` where `cutoff` is the rendered instant
`Utc::now() - 24 hours`.  The returned items are converted to records by
the crate's `From` impl (not in `src/`), which is length-preserving, so
the item list stands for the record list. -/
def aws_all_peers (table : CloudTable) (cutoff : String) (page_size : Option Int) :
    Except ScanTableError CloudTable :=
  Except.ok (cloudScan table cutoff (i32AsUsize (page_size.getD 1000)))

/-! ## Helper lemmas -/

theorem mem_upsertBy_self {α κ : Type} [DecidableEq κ] (key : α → κ) (x : α) (l : List α) :
    x ∈ upsertBy key x l := by
  induction l with
  | nil => simp [upsertBy]
  | cons y ys ih =>
    simp only [upsertBy]
    split
    · exact List.mem_cons_self _ _
    · exact List.mem_cons_of_mem _ ih

theorem map_key_upsertBy_subset {α κ : Type} [DecidableEq κ] (key : α → κ) (x : α)
    (l : List α) : (upsertBy key x l).map key ⊆ key x :: l.map key := by
  induction l with
  | nil => simp [upsertBy]
  | cons y ys ih =>
    simp only [upsertBy]
    split
    · intro k hk
      simp only [List.map_cons, List.mem_cons] at hk ⊢
      tauto
    · intro k hk
      simp only [List.map_cons, List.mem_cons] at hk ⊢
      rcases hk with h | h
      · tauto
      · have := ih h
        simp only [List.mem_cons] at this
        tauto

theorem upsertBy_keys_nodup {α κ : Type} [DecidableEq κ] (key : α → κ) (x : α)
    (l : List α) (h : (l.map key).Nodup) :
    ((upsertBy key x l).map key).Nodup := by
  induction l with
  | nil => simp [upsertBy]
  | cons y ys ih =>
    simp only [List.map_cons, List.nodup_cons] at h
    simp only [upsertBy]
    split
    · next heq =>
      simp only [List.map_cons, List.nodup_cons]
      exact ⟨by rw [← heq]; exact h.1, h.2⟩
    · next hne =>
      simp only [List.map_cons, List.nodup_cons]
      refine ⟨fun hmem => ?_, ih h.2⟩
      have := map_key_upsertBy_subset key x ys hmem
      simp only [List.mem_cons] at this
      rcases this with he | he
      · exact hne he
      · exact h.1 he

theorem upsertBy_filter_keyed {α κ : Type} [DecidableEq κ] (key : α → κ) (x : α)
    (l : List α) (h : (l.map key).Nodup) :
    (upsertBy key x l).filter (fun y => key y == key x) = [x] := by
  induction l with
  | nil => simp [upsertBy]
  | cons y ys ih =>
    simp only [List.map_cons, List.nodup_cons] at h
    simp only [upsertBy]
    split
    · next heq =>
      have hnone : ys.filter (fun z => key z == key x) = [] := by
        rw [List.filter_eq_nil_iff]
        intro z hz hbeq
        have hzx : key z = key x := by simpa using hbeq
        apply h.1
        rw [heq, ← hzx]
        exact List.mem_map_of_mem key hz
      simp [List.filter_cons, hnone]
    · next hne =>
      have hbeq : (key y == key x) = false := by
        simp only [beq_eq_false_iff_ne, ne_eq]; exact hne
      simp only [List.filter_cons, hbeq]
      simpa using ih h.2

theorem collectOk_map_eq_filterMap (f : SqlRow → Option PeerData) (l : List SqlRow) :
    collectOk (l.map f) = l.filterMap f := by
  induction l with
  | nil => rfl
  | cons a l ih =>
    cases hfa : f a <;> simp [collectOk, List.filterMap_cons, hfa, ih]

theorem splitCommaChars_cons (c : Char) (cs : List Char) :
    splitCommaChars (c :: cs) =
      if c = ',' then [] :: splitCommaChars cs
      else
        match splitCommaChars cs with
        | [] => [[c]]
        | cur :: rs => (c :: cur) :: rs := rfl

theorem splitCommaChars_ne_nil (cs : List Char) : splitCommaChars cs ≠ [] := by
  induction cs with
  | nil => simp [splitCommaChars]
  | cons c rest ih =>
    rw [splitCommaChars_cons]
    split
    · simp
    · cases hr : splitCommaChars rest <;> simp [hr]

theorem splitCommaChars_no_comma (cs : List Char) (h : ∀ c ∈ cs, c ≠ ',') :
    splitCommaChars cs = [cs] := by
  induction cs with
  | nil => rfl
  | cons c rest ih =>
    have hc : c ≠ ',' := h c (by simp)
    have hrest : splitCommaChars rest = [rest] := ih (fun d hd => h d (by simp [hd]))
    rw [splitCommaChars_cons, if_neg hc, hrest]

theorem splitCommaChars_append (cs ds : List Char) (h : ∀ c ∈ cs, c ≠ ',') :
    splitCommaChars (cs ++ ',' :: ds) = cs :: splitCommaChars ds := by
  induction cs with
  | nil =>
    rw [List.nil_append, splitCommaChars_cons, if_pos rfl]
  | cons c rest ih =>
    have hc : c ≠ ',' := h c (by simp)
    have hrest : splitCommaChars (rest ++ ',' :: ds) = rest :: splitCommaChars ds :=
      ih (fun d hd => h d (by simp [hd]))
    rw [List.cons_append, splitCommaChars_cons, if_neg hc, hrest]

theorem string_mk_data (s : String) : String.mk s.data = s := rfl

theorem splitComma_joinComma (l : List String) (hne : l ≠ [])
    (h : ∀ s ∈ l, ∀ c ∈ s.data, c ≠ ',') :
    splitComma (joinComma l) = l := by
  induction l with
  | nil => exact absurd rfl hne
  | cons s rest ih =>
    cases rest with
    | nil =>
      have hs : ∀ c ∈ s.data, c ≠ ',' := h s (by simp)
      simp [splitComma, joinComma, splitCommaChars_no_comma s.data hs, string_mk_data]
    | cons t ts =>
      have hs : ∀ c ∈ s.data, c ≠ ',' := h s (by simp)
      have hdata : (joinComma (s :: t :: ts)).data
          = s.data ++ ',' :: (joinComma (t :: ts)).data := by
        show (s ++ "," ++ joinComma (t :: ts)).data = _
        simp [String.data_append, List.append_assoc]
      have htail : List.map (fun l => String.mk l)
          (splitCommaChars (joinComma (t :: ts)).data) = t :: ts :=
        ih (by simp) (fun u hu => h u (by simp [hu]))
      simp only [splitComma, hdata, splitCommaChars_append s.data _ hs, List.map_cons,
        string_mk_data, htail]

theorem getText_eq_some (v : SqlValue) (s : String) :
    v.getText = some s ↔ v = SqlValue.vText s := by
  cases v <;> simp [SqlValue.getText]

theorem decode_encode (p : PeerData) :
    decodeRow (encodeRow p)
      = some { p with capabilities := splitComma (joinComma p.capabilities) } := rfl

theorem decodeRow_fields (row : SqlRow) (p : PeerData) (h : decodeRow row = some p) :
    row.id = SqlValue.vText p.id ∧ row.ip = SqlValue.vText p.address := by
  unfold decodeRow at h
  obtain ⟨a1, h1, h⟩ := Option.bind_eq_some.mp h
  obtain ⟨a2, h2, h⟩ := Option.bind_eq_some.mp h
  obtain ⟨a3, h3, h⟩ := Option.bind_eq_some.mp h
  obtain ⟨a4, h4, h⟩ := Option.bind_eq_some.mp h
  obtain ⟨a5, h5, h⟩ := Option.bind_eq_some.mp h
  obtain ⟨a6, h6, h⟩ := Option.bind_eq_some.mp h
  obtain ⟨a7, h7, h⟩ := Option.bind_eq_some.mp h
  obtain ⟨a8, h8, h⟩ := Option.bind_eq_some.mp h
  obtain ⟨a9, h9, h⟩ := Option.bind_eq_some.mp h
  obtain ⟨a10, h10, h⟩ := Option.bind_eq_some.mp h
  obtain ⟨a11, h11, h⟩ := Option.bind_eq_some.mp h
  obtain ⟨a12, h12, h⟩ := Option.bind_eq_some.mp h
  obtain ⟨a13, h13, h⟩ := Option.bind_eq_some.mp h
  obtain ⟨a14, h14, h⟩ := Option.bind_eq_some.mp h
  injection h with h
  subst h
  exact ⟨(getText_eq_some _ _).mp h1, (getText_eq_some _ _).mp h2⟩

theorem i32AsUsize_eq_toNat (k : Int) (h0 : 0 ≤ k) (h1 : k < 2 ^ 31) :
    i32AsUsize k = k.toNat := by
  unfold i32AsUsize
  rw [Int.emod_eq_of_lt h0 (lt_trans h1 (by norm_num))]

theorem itemKey_awsItem (p : PeerData) (region : String) (t : Int) :
    itemKey (awsItem p region t) = some (AttributeValue.S p.id) := rfl

/-- Shared helper: after an embedded-store upsert of a record whose
capability list survives the comma round trip, looking the record's id
up returns a list containing the record. -/
theorem sql_add_then_lookup (db : SqlDB) (p : PeerData)
    (hcap : splitComma (joinComma p.capabilities) = p.capabilities) :
    ∃ l, sql_node_by_id (sql_add_peer db p none).1 p.id = Except.ok (some l)
      ∧ p ∈ l ∧ l ≠ [] := by
  have hdec : decodeRow (encodeRow p) = some p := by
    rw [decode_encode, hcap]
  refine ⟨_, rfl, ?_, ?_⟩
  · rw [collectOk_map_eq_filterMap]
    exact List.mem_filterMap.mpr ⟨encodeRow p, List.mem_filter.mpr
      ⟨mem_upsertBy_self SqlRow.id (encodeRow p) db, by simp [encodeRow]⟩, hdec⟩
  · rw [collectOk_map_eq_filterMap]
    exact List.ne_nil_of_mem (List.mem_filterMap.mpr ⟨encodeRow p, List.mem_filter.mpr
      ⟨mem_upsertBy_self SqlRow.id (encodeRow p) db, by simp [encodeRow]⟩, hdec⟩)

/-- Shared helper: after an in-memory upsert (lock not poisoned), looking
the record's id up returns a list containing the record. -/
theorem im_add_then_lookup (s : InMemoryPeerDB) (p : PeerData)
    (hp : s.poisoned = false) :
    ∃ l, im_node_by_id (im_add_peer s p none).1 p.id = Except.ok (some l)
      ∧ p ∈ l ∧ l ≠ [] := by
  have hstate : (im_add_peer s p none).1
      = { s with db := upsertBy Prod.fst (p.id, p) s.db } := by
    simp [im_add_peer, hp]
  rw [hstate]
  have hmem : p ∈ (((upsertBy Prod.fst (p.id, p) s.db).filter
      (fun kv => kv.1 == p.id)).map Prod.snd) := by
    refine List.mem_map.mpr ⟨(p.id, p), List.mem_filter.mpr ⟨?_, ?_⟩, rfl⟩
    · exact mem_upsertBy_self Prod.fst (p.id, p) s.db
    · simp
  refine ⟨_, by simp [im_node_by_id, hp], hmem, List.ne_nil_of_mem hmem⟩

/-! ## Concrete records used as witnesses -/

/-- A representative well-formed peer record. -/
def samplePeer : PeerData :=
  { id := "enode-a", address := "1.2.3.4", client_version := "reth/v0.1",
    enode_url := "enode://a@1.2.3.4:30303", tcp_port := 30303, chain := "mainnet",
    genesis_block_hash := "0xgen", best_block := "0xbest", total_difficulty := "17",
    country := "IS", city := "Reykjavik", last_seen := "2026-10-12 00:00:00 UTC",
    capabilities := ["eth/66", "snap/1"], eth_version := 66 }

/-- A later observation of the same peer: same `id`, different fields. -/
def samplePeer2 : PeerData :=
  { samplePeer with client_version := "geth/v1.13", capabilities := ["eth/68"], last_seen := "2026-10-12 01:00:00 UTC", eth_version := 68 }

/-- A record with a comma inside a capability name. -/
def commaPeer : PeerData :=
  { samplePeer with id := "enode-b", capabilities := ["eth/66,snap/1"] }

/-- A record with an empty capability list. -/
def emptyCapsPeer : PeerData :=
  { samplePeer with id := "enode-c", capabilities := [] }

/-- A record last seen years in the past. -/
def stalePeer : PeerData :=
  { samplePeer with id := "enode-d", last_seen := "2020-01-01 00:00:00 UTC" }

/-- An embedded-store row whose `capabilities` column is NULL: decoding
it with `row.get::<String>` fails. -/
def badRow : SqlRow :=
  { encodeRow samplePeer with id := SqlValue.vText "enode-bad", capabilities := SqlValue.vNull }

/-- Records one, ten and forty days old relative to a now of
2026-10-12, and the rendered cutoff for `prune_peers(30)`. -/
def peerDay1 : PeerData :=
  { samplePeer with id := "n1", last_seen := "2026-10-11 00:00:00 UTC" }

def peerDay10 : PeerData :=
  { samplePeer with id := "n10", last_seen := "2026-10-02 00:00:00 UTC" }

def peerDay40 : PeerData :=
  { samplePeer with id := "n40", last_seen := "2026-09-02 00:00:00 UTC" }

def cutoff30 : String := "2026-09-12 00:00:00 UTC"

/-! ## The claims -/

/-- C1.  The spec requires that, on the cloud backend, `add_peer` with
`ttl = None` fail with a declared `AddError` variant and never reach an
unchecked abort.  The code instead calls `ttl.unwrap()` while building
the item, so every such call takes the abort branch (modelled by the
`none` result) regardless of the network oracle, the region, the table
state or the record — exhibiting the defect the spec flags. -/
theorem aws_add_peer_missing_ttl_aborts (netOk : Bool) (region : String)
    (table : CloudTable) (p : PeerData) :
    aws_add_peer netOk region table p none = none := rfl

/-- C2 counterexample.  The embedded backend ignores `page_size`: with
one stored row and `page_size = 0`, `all_peers` still returns one
record, so the claimed bound of at most K records fails at K = 0. -/
theorem sql_all_peers_ignores_page_size_cex :
    sql_all_peers [encodeRow samplePeer] (some 0) = Except.ok [samplePeer] ∧
    ¬ ([samplePeer].length ≤ 0) := by
  exact ⟨rfl, by decide⟩

/-- C2 amended.  For the in-memory backend and the cloud backend (whose
server-side limit is modelled from the spec), `all_peers(page_size = K)`
returns at most K records for any i32 K with 0 ≤ K; the embedded backend
ignores `page_size` entirely and returns every decodable stored row. -/
theorem all_peers_page_bound (s : InMemoryPeerDB) (table : CloudTable) (db : SqlDB)
    (cutoff : String) (k : Int) (hk : 0 ≤ k) (hk31 : k < 2 ^ 31)
    (hp : s.poisoned = false) :
    (∀ l, im_all_peers s (some k) = Except.ok l → l.length ≤ k.toNat) ∧
    (∀ items, aws_all_peers table cutoff (some k) = Except.ok items →
      items.length ≤ k.toNat) ∧
    sql_all_peers db (some k) = Except.ok (db.filterMap decodeRow) := by
  refine ⟨?_, ?_, ?_⟩
  · intro l hl
    rw [im_all_peers, hp] at hl
    simp only [Bool.false_eq_true, if_false, Except.ok.injEq] at hl
    subst hl
    rw [Option.getD_some, i32AsUsize_eq_toNat k hk hk31]
    exact (List.length_take _ _).le.trans (min_le_left _ _)
  · intro items hitems
    rw [aws_all_peers, Except.ok.injEq] at hitems
    subst hitems
    rw [cloudScan, Option.getD_some, i32AsUsize_eq_toNat k hk hk31]
    exact (List.length_take _ _).le.trans (min_le_left _ _)
  · rw [sql_all_peers, collectOk_map_eq_filterMap]

/-- C2 amended, witness at a concrete page size and concrete stores. -/
theorem all_peers_page_bound_witness :
    (∀ l, im_all_peers ⟨false, [("enode-a", samplePeer)]⟩ (some 5) = Except.ok l →
      l.length ≤ (5 : Int).toNat) ∧
    (∀ items, aws_all_peers [awsItem samplePeer "us-west-2" 100] "" (some 5)
        = Except.ok items → items.length ≤ (5 : Int).toNat) ∧
    sql_all_peers [encodeRow samplePeer] (some 5)
      = Except.ok (List.filterMap decodeRow [encodeRow samplePeer]) :=
  all_peers_page_bound ⟨false, [("enode-a", samplePeer)]⟩
    [awsItem samplePeer "us-west-2" 100] [encodeRow samplePeer] "" 5
    (by decide) (by decide) rfl

/-- C3 counterexample.  The deleted-row count is only written to the
log: the caller-visible result of `prune_peers` is the unit value, so
two stores in which different numbers of rows are deleted (here one row
versus none) produce identical results for the caller — the count is
not reported to the caller. -/
theorem sql_prune_peers_count_not_returned_cex :
    (sql_prune_peers [encodeRow peerDay40] cutoff30).2.1 = 1 ∧
    (sql_prune_peers [] cutoff30).2.1 = 0 ∧
    (sql_prune_peers [encodeRow peerDay40] cutoff30).2.2
      = (sql_prune_peers [] cutoff30).2.2 ∧
    (sql_prune_peers [encodeRow peerDay40] cutoff30).2.2 = Except.ok () := by
  exact ⟨by decide, rfl, rfl, rfl⟩

/-- C3 amended.  `prune_peers(age_days)` on the embedded store deletes
exactly the rows whose `last_seen` is older (byte-lexicographically, as
SQLite compares the stored strings) than the rendered cutoff
`now - age_days`; the count of deleted rows is computed and logged, but
the caller receives only the success value.  In particular, with records
last seen one, ten and forty days ago, `prune_peers(30)` removes exactly
the forty-day-old record. -/
theorem sql_prune_peers_spec (db : SqlDB) (cutoff : String) :
    (∀ r : SqlRow, r ∈ (sql_prune_peers db cutoff).1 ↔
      r ∈ db ∧ SqlValue.sqlLt r.last_seen (SqlValue.vText cutoff) = false) ∧
    (sql_prune_peers db cutoff).2.1
      = (db.filter (fun r => SqlValue.sqlLt r.last_seen (SqlValue.vText cutoff))).length ∧
    (sql_prune_peers db cutoff).2.2 = Except.ok () ∧
    sql_prune_peers [encodeRow peerDay1, encodeRow peerDay10, encodeRow peerDay40] cutoff30
      = ([encodeRow peerDay1, encodeRow peerDay10], 1, Except.ok ()) := by
  refine ⟨?_, rfl, rfl, rfl⟩
  intro r
  simp [sql_prune_peers, List.mem_filter]

/-- C4.  Under the one-record-per-id invariant (no duplicate keys), every
backend's `add_peer` preserves the invariant, and two successive
`add_peer` calls whose records share an `id` leave exactly one record
stored under that `id`, with the fields of the most recent call: this
holds for the in-memory map insert, the embedded `INSERT OR REPLACE`,
and the cloud `put_item` (whose service-side keyed-overwrite semantics
are modelled from the spec).  The embedded store's only other mutation,
`prune_peers`, also preserves the invariant. -/
theorem add_peer_upsert
    (s : InMemoryPeerDB) (db : SqlDB) (table : CloudTable) (region : String)
    (t1 t2 : Int) (p1 p2 : PeerData) (cutoff : String)
    (_hid : p1.id = p2.id) (hp : s.poisoned = false)
    (hs : (s.db.map Prod.fst).Nodup)
    (hdb : (db.map SqlRow.id).Nodup)
    (htab : (table.map itemKey).Nodup) :
    (((im_add_peer (im_add_peer s p1 none).1 p2 none).1.db.map Prod.fst).Nodup
      ∧ (im_add_peer (im_add_peer s p1 none).1 p2 none).1.db.filter
          (fun kv => kv.1 == p2.id) = [(p2.id, p2)]) ∧
    ((((sql_add_peer (sql_add_peer db p1 none).1 p2 none).1.map SqlRow.id).Nodup)
      ∧ (sql_add_peer (sql_add_peer db p1 none).1 p2 none).1.filter
          (fun r => r.id == SqlValue.vText p2.id) = [encodeRow p2]) ∧
    (aws_add_peer true region table p1 (some t1)
        = some (cloudPutItem (awsItem p1 region t1) table, Except.ok ())
      ∧ ((cloudPutItem (awsItem p2 region t2)
            (cloudPutItem (awsItem p1 region t1) table)).map itemKey).Nodup
      ∧ (cloudPutItem (awsItem p2 region t2)
            (cloudPutItem (awsItem p1 region t1) table)).filter
          (fun it => decide (itemKey it = itemKey (awsItem p2 region t2)))
          = [awsItem p2 region t2]) ∧
    (∀ d : SqlDB, (d.map SqlRow.id).Nodup →
      (((sql_prune_peers d cutoff).1).map SqlRow.id).Nodup) := by
  obtain ⟨pois, sdb⟩ := s
  have hp2 : pois = false := hp
  subst hp2
  refine ⟨⟨?_, ?_⟩, ⟨?_, ?_⟩, ⟨rfl, ?_, ?_⟩, ?_⟩
  · exact upsertBy_keys_nodup Prod.fst (p2.id, p2) _
      (upsertBy_keys_nodup Prod.fst (p1.id, p1) _ hs)
  · exact upsertBy_filter_keyed Prod.fst (p2.id, p2) _
      (upsertBy_keys_nodup Prod.fst (p1.id, p1) _ hs)
  · exact upsertBy_keys_nodup SqlRow.id (encodeRow p2) _
      (upsertBy_keys_nodup SqlRow.id (encodeRow p1) _ hdb)
  · exact upsertBy_filter_keyed SqlRow.id (encodeRow p2) _
      (upsertBy_keys_nodup SqlRow.id (encodeRow p1) _ hdb)
  · exact upsertBy_keys_nodup itemKey (awsItem p2 region t2) _
      (upsertBy_keys_nodup itemKey (awsItem p1 region t1) _ htab)
  · exact upsertBy_filter_keyed itemKey (awsItem p2 region t2) _
      (upsertBy_keys_nodup itemKey (awsItem p1 region t1) _ htab)
  · intro d hd
    exact ((List.filter_sublist d).map SqlRow.id).nodup hd

/-- C4, witness: two observations of the same peer upserted into each
initially-empty backend. -/
theorem add_peer_upsert_witness :
    samplePeer.id = samplePeer2.id ∧
    ((((im_add_peer (im_add_peer ⟨false, []⟩ samplePeer none).1 samplePeer2 none).1.db.map
        Prod.fst).Nodup
      ∧ (im_add_peer (im_add_peer ⟨false, []⟩ samplePeer none).1 samplePeer2 none).1.db.filter
          (fun kv => kv.1 == samplePeer2.id) = [(samplePeer2.id, samplePeer2)]) ∧
    ((((sql_add_peer (sql_add_peer [] samplePeer none).1 samplePeer2 none).1.map
        SqlRow.id).Nodup)
      ∧ (sql_add_peer (sql_add_peer [] samplePeer none).1 samplePeer2 none).1.filter
          (fun r => r.id == SqlValue.vText samplePeer2.id) = [encodeRow samplePeer2]) ∧
    (aws_add_peer true "us-west-2" [] samplePeer (some 100)
        = some (cloudPutItem (awsItem samplePeer "us-west-2" 100) [], Except.ok ())
      ∧ ((cloudPutItem (awsItem samplePeer2 "us-west-2" 200)
            (cloudPutItem (awsItem samplePeer "us-west-2" 100) [])).map itemKey).Nodup
      ∧ (cloudPutItem (awsItem samplePeer2 "us-west-2" 200)
            (cloudPutItem (awsItem samplePeer "us-west-2" 100) [])).filter
          (fun it => decide (itemKey it = itemKey (awsItem samplePeer2 "us-west-2" 200)))
          = [awsItem samplePeer2 "us-west-2" 200]) ∧
    (∀ d : SqlDB, (d.map SqlRow.id).Nodup →
      (((sql_prune_peers d cutoff30).1).map SqlRow.id).Nodup)) :=
  ⟨rfl, add_peer_upsert ⟨false, []⟩ [] [] "us-west-2" 100 200 samplePeer samplePeer2
    cutoff30 rfl rfl (by simp) (by simp) (by simp)⟩

/-- C5 counterexample.  For the embedded store and a record whose single
capability contains a comma, `add_peer` followed by `node_by_id` returns
a record different from the one stored (the capability has been split in
two), so the returned list contains no record equal to the original. -/
theorem sql_node_by_id_comma_caps_cex :
    sql_node_by_id (sql_add_peer [] commaPeer none).1 commaPeer.id
      = Except.ok (some [{ commaPeer with capabilities := ["eth/66", "snap/1"] }]) ∧
    ({ commaPeer with capabilities := ["eth/66", "snap/1"] } : PeerData) ≠ commaPeer := by
  exact ⟨rfl, by decide⟩

/-- C5 amended.  After `add_peer(r)` succeeds, `node_by_id(r.id)`
returns a non-empty list containing a record equal to `r` — for the
in-memory backend unconditionally, and for the embedded backend provided
r's capability list survives the comma join/split serialization; and for
an id under which nothing is stored, `node_by_id` returns an empty list
as a successful outcome on both backends. -/
theorem node_by_id_lookup (s : InMemoryPeerDB) (db : SqlDB) (r : PeerData) (y : String)
    (hp : s.poisoned = false)
    (hy1 : ∀ kv ∈ s.db, kv.1 ≠ y)
    (hy2 : ∀ row ∈ db, row.id ≠ SqlValue.vText y) :
    (∃ l, im_node_by_id (im_add_peer s r none).1 r.id = Except.ok (some l)
      ∧ r ∈ l ∧ l ≠ []) ∧
    (splitComma (joinComma r.capabilities) = r.capabilities →
      ∃ l, sql_node_by_id (sql_add_peer db r none).1 r.id = Except.ok (some l)
        ∧ r ∈ l ∧ l ≠ []) ∧
    im_node_by_id s y = Except.ok (some []) ∧
    sql_node_by_id db y = Except.ok (some []) := by
  refine ⟨im_add_then_lookup s r hp,
    fun hcap => sql_add_then_lookup db r hcap, ?_, ?_⟩
  · have hfil : s.db.filter (fun kv => kv.1 == y) = [] := by
      rw [List.filter_eq_nil_iff]
      intro kv hkv hbeq
      exact hy1 kv hkv (by simpa using hbeq)
    rw [im_node_by_id, hp]
    simp [hfil]
  · have hfil : db.filter (fun row => row.id == SqlValue.vText y) = [] := by
      rw [List.filter_eq_nil_iff]
      intro row hrow hbeq
      exact hy2 row hrow (by simpa using hbeq)
    rw [sql_node_by_id, hfil]
    rfl

/-- C5 amended, witness: a fresh record in each empty backend, an id
that was never added, and — for the unconditional in-memory part — a
record whose capability contains a comma. -/
theorem node_by_id_lookup_witness :
    ((∃ l, im_node_by_id (im_add_peer ⟨false, []⟩ samplePeer none).1 samplePeer.id
        = Except.ok (some l) ∧ samplePeer ∈ l ∧ l ≠ []) ∧
    (splitComma (joinComma samplePeer.capabilities) = samplePeer.capabilities →
      ∃ l, sql_node_by_id (sql_add_peer [] samplePeer none).1 samplePeer.id
        = Except.ok (some l) ∧ samplePeer ∈ l ∧ l ≠ []) ∧
    im_node_by_id ⟨false, []⟩ "enode-z" = Except.ok (some []) ∧
    sql_node_by_id [] "enode-z" = Except.ok (some [])) ∧
    (∃ l, im_node_by_id (im_add_peer ⟨false, []⟩ commaPeer none).1 commaPeer.id
        = Except.ok (some l) ∧ commaPeer ∈ l ∧ l ≠ []) :=
  ⟨node_by_id_lookup ⟨false, []⟩ [] samplePeer "enode-z" rfl (by simp) (by simp),
   (node_by_id_lookup ⟨false, []⟩ [] commaPeer "enode-z" rfl (by simp) (by simp)).1⟩

/-- A record living at a different address than `samplePeer`. -/
def otherPeer : PeerData :=
  { samplePeer with id := "enode-e", address := "5.6.7.8" }

/-- C6.  `node_by_ip(addr)` returns exactly the stored records whose
`address` field equals `addr` and no others: on the in-memory backend
the values of the map entries with that address, on the embedded backend
the decodable rows with that address (a record decoded from a row
carries the row's `ip` column as its address, so the returned list is
characterized by membership both ways). -/
theorem node_by_ip_exact (s : InMemoryPeerDB) (db : SqlDB) (ip : String)
    (hp : s.poisoned = false) :
    (∃ l, im_node_by_ip s ip = Except.ok (some l) ∧
      ∀ p : PeerData, p ∈ l ↔ ((∃ kv ∈ s.db, kv.2 = p) ∧ p.address = ip)) ∧
    (∃ l, sql_node_by_ip db ip = Except.ok (some l) ∧
      ∀ p : PeerData, p ∈ l ↔ ((∃ row ∈ db, decodeRow row = some p) ∧ p.address = ip)) := by
  constructor
  · refine ⟨(s.db.filter (fun kv => kv.2.address == ip)).map Prod.snd, ?_, ?_⟩
    · rw [im_node_by_ip, hp]
      simp
    · intro p
      constructor
      · intro hpmem
        obtain ⟨kv, hkv, rfl⟩ := List.mem_map.mp hpmem
        obtain ⟨hkvdb, hbeq⟩ := List.mem_filter.mp hkv
        exact ⟨⟨kv, hkvdb, rfl⟩, by simpa using hbeq⟩
      · rintro ⟨⟨kv, hkvdb, rfl⟩, haddr⟩
        exact List.mem_map.mpr ⟨kv, List.mem_filter.mpr ⟨hkvdb, by simp [haddr]⟩, rfl⟩
  · refine ⟨(db.filter (fun row => row.ip == SqlValue.vText ip)).filterMap decodeRow, ?_, ?_⟩
    · rw [sql_node_by_ip, collectOk_map_eq_filterMap]
    · intro p
      constructor
      · intro hpmem
        obtain ⟨row, hrowf, hdec⟩ := List.mem_filterMap.mp hpmem
        obtain ⟨hrowdb, hbeq⟩ := List.mem_filter.mp hrowf
        have hip := (decodeRow_fields row p hdec).2
        have hvt : SqlValue.vText p.address = SqlValue.vText ip := by
          rw [← hip]
          simpa using hbeq
        refine ⟨⟨row, hrowdb, hdec⟩, ?_⟩
        injection hvt
      · rintro ⟨⟨row, hrowdb, hdec⟩, haddr⟩
        have hip := (decodeRow_fields row p hdec).2
        refine List.mem_filterMap.mpr ⟨row, List.mem_filter.mpr ⟨hrowdb, ?_⟩, hdec⟩
        rw [hip, haddr]
        simp

/-- C6, witness: stores holding one record at the looked-up address and
one record at a different address. -/
theorem node_by_ip_exact_witness :
    (∃ l, im_node_by_ip ⟨false, [("enode-a", samplePeer), ("enode-e", otherPeer)]⟩ "1.2.3.4"
        = Except.ok (some l) ∧
      ∀ p : PeerData, p ∈ l ↔
        ((∃ kv ∈ [("enode-a", samplePeer), ("enode-e", otherPeer)], kv.2 = p)
          ∧ p.address = "1.2.3.4")) ∧
    (∃ l, sql_node_by_ip [encodeRow samplePeer, encodeRow otherPeer] "1.2.3.4"
        = Except.ok (some l) ∧
      ∀ p : PeerData, p ∈ l ↔
        ((∃ row ∈ [encodeRow samplePeer, encodeRow otherPeer], decodeRow row = some p)
          ∧ p.address = "1.2.3.4")) :=
  node_by_ip_exact ⟨false, [("enode-a", samplePeer), ("enode-e", otherPeer)]⟩
    [encodeRow samplePeer, encodeRow otherPeer] "1.2.3.4" rfl

/-- C7 counterexample.  The empty capability list has no element
containing a comma, yet it does not round-trip through the embedded
store: it is read back as the one-element list containing the empty
string. -/
theorem caps_empty_list_roundtrip_cex :
    sql_node_by_id (sql_add_peer [] emptyCapsPeer none).1 emptyCapsPeer.id
      = Except.ok (some [{ emptyCapsPeer with capabilities := [""] }]) ∧
    ({ emptyCapsPeer with capabilities := [""] } : PeerData) ≠ emptyCapsPeer := by
  exact ⟨rfl, by decide⟩

/-- C7 amended.  A non-empty capability list whose elements contain no
comma round-trips unchanged through the embedded store's `add_peer`
followed by `node_by_id`; the empty list and comma-containing capability
strings break the round trip — as witnessed here by the record whose
single capability contains a comma coming back as a two-element list. -/
theorem caps_roundtrip (db : SqlDB) (p : PeerData)
    (hne : p.capabilities ≠ [])
    (hcomma : ∀ s ∈ p.capabilities, ∀ c ∈ s.data, c ≠ ',') :
    (∃ l, sql_node_by_id (sql_add_peer db p none).1 p.id = Except.ok (some l)
      ∧ p ∈ l ∧ l ≠ []) ∧
    sql_node_by_id (sql_add_peer [] commaPeer none).1 commaPeer.id
      = Except.ok (some [{ commaPeer with capabilities := ["eth/66", "snap/1"] }]) ∧
    ({ commaPeer with capabilities := ["eth/66", "snap/1"] } : PeerData) ≠ commaPeer := by
  refine ⟨sql_add_then_lookup db p (splitComma_joinComma p.capabilities hne hcomma),
    rfl, by decide⟩

/-- C7 amended, witness: the two-element list of the spec's example,
added to an empty embedded store. -/
theorem caps_roundtrip_witness :
    samplePeer.capabilities ≠ [] ∧
    ((∃ l, sql_node_by_id (sql_add_peer [] samplePeer none).1 samplePeer.id
        = Except.ok (some l) ∧ samplePeer ∈ l ∧ l ≠ []) ∧
    sql_node_by_id (sql_add_peer [] commaPeer none).1 commaPeer.id
      = Except.ok (some [{ commaPeer with capabilities := ["eth/66", "snap/1"] }]) ∧
    ({ commaPeer with capabilities := ["eth/66", "snap/1"] } : PeerData) ≠ commaPeer) :=
  ⟨by decide, caps_roundtrip [] samplePeer (by decide) (by decide)⟩

/-- C8 counterexample.  The embedded backend applies no freshness
window: a record last seen in 2020 — far older than 24 hours before the
2026 reference instant whose rendered 24-hour cutoff is given — is still
returned by `all_peers` with the page size omitted. -/
theorem sql_all_peers_no_freshness_cex :
    sql_all_peers [encodeRow stalePeer] none = Except.ok [stalePeer] ∧
    charListLt stalePeer.last_seen.data ("2026-10-11 00:00:00 UTC").data = true := by
  exact ⟨rfl, by decide⟩

/-- C8 amended.  With `page_size` omitted, the cloud backend defaults to
1000 and returns only items passing the 24-hour freshness filter (scan
semantics modelled from the spec), and the in-memory backend defaults to
50 and returns exactly the first 50 stored values in iteration order —
an unfiltered, unordered page; the embedded backend ignores `page_size`
and returns every decodable row with no freshness filter and no
limit. -/
theorem all_peers_defaults (s : InMemoryPeerDB) (table : CloudTable) (db : SqlDB)
    (cutoff : String) (hp : s.poisoned = false) :
    im_all_peers s none = Except.ok ((s.db.map Prod.snd).take 50) ∧
    (∀ items, aws_all_peers table cutoff none = Except.ok items →
      items.length ≤ 1000 ∧ ∀ it ∈ items, itemFresh it cutoff = true) ∧
    sql_all_peers db none = Except.ok (db.filterMap decodeRow) := by
  refine ⟨?_, ?_, ?_⟩
  · have h50 : i32AsUsize ((none : Option Int).getD 50) = 50 := by decide
    rw [im_all_peers, hp, h50]
    simp
  · intro items hitems
    rw [aws_all_peers, Except.ok.injEq] at hitems
    subst hitems
    constructor
    · exact (List.length_take _ _).le.trans (min_le_left _ _)
    · intro it hit
      have hmem := List.take_subset _ _ hit
      exact (List.mem_filter.mp hmem).2
  · rw [sql_all_peers, collectOk_map_eq_filterMap]

/-- C8 amended, witness: one fresh and one stale record in each
backend, with the rendered 24-hour cutoff for a now of 2026-10-12 — the
in-memory page equation shows the stale record is returned there too. -/
theorem all_peers_defaults_witness :
    im_all_peers ⟨false, [("enode-a", samplePeer), ("enode-d", stalePeer)]⟩ none
      = Except.ok (([("enode-a", samplePeer), ("enode-d", stalePeer)].map Prod.snd).take 50) ∧
    (∀ items, aws_all_peers
        [awsItem samplePeer "us-west-2" 100, awsItem stalePeer "us-west-2" 100]
        "2026-10-11 00:00:00 UTC" none = Except.ok items →
      items.length ≤ 1000 ∧
        ∀ it ∈ items, itemFresh it "2026-10-11 00:00:00 UTC" = true) ∧
    sql_all_peers [encodeRow samplePeer, encodeRow stalePeer] none
      = Except.ok (List.filterMap decodeRow [encodeRow samplePeer, encodeRow stalePeer]) :=
  all_peers_defaults ⟨false, [("enode-a", samplePeer), ("enode-d", stalePeer)]⟩
    [awsItem samplePeer "us-west-2" 100, awsItem stalePeer "us-west-2" 100]
    [encodeRow samplePeer, encodeRow stalePeer] "2026-10-11 00:00:00 UTC" rfl

/-- C9.  On the embedded store, a row whose column decoding fails is
silently omitted: prepending such a row to the table changes the result
of `all_peers`, `node_by_id` and `node_by_ip` not at all, and the scan
still succeeds, returning exactly the decodable rows. -/
theorem sql_skips_undecodable_rows (bad : SqlRow) (rest : SqlDB) (ps : Option Int)
    (id ip : String) (h : decodeRow bad = none) :
    sql_all_peers (bad :: rest) ps = sql_all_peers rest ps ∧
    sql_node_by_id (bad :: rest) id = sql_node_by_id rest id ∧
    sql_node_by_ip (bad :: rest) ip = sql_node_by_ip rest ip ∧
    sql_all_peers (bad :: rest) ps = Except.ok ((bad :: rest).filterMap decodeRow) := by
  refine ⟨?_, ?_, ?_, ?_⟩
  · rw [sql_all_peers, sql_all_peers, List.map_cons, h]
    rfl
  · rw [sql_node_by_id, sql_node_by_id, List.filter_cons]
    cases hb : (bad.id == SqlValue.vText id) <;> simp [List.map_cons, h, collectOk]
  · rw [sql_node_by_ip, sql_node_by_ip, List.filter_cons]
    cases hb : (bad.ip == SqlValue.vText ip) <;> simp [List.map_cons, h, collectOk]
  · rw [sql_all_peers, collectOk_map_eq_filterMap]

/-- C9, witness: a row with a NULL `capabilities` column in front of a
well-formed row. -/
theorem sql_skips_undecodable_rows_witness :
    decodeRow badRow = none ∧
    (sql_all_peers [badRow, encodeRow samplePeer] none
        = sql_all_peers [encodeRow samplePeer] none ∧
    sql_node_by_id [badRow, encodeRow samplePeer] "enode-bad"
        = sql_node_by_id [encodeRow samplePeer] "enode-bad" ∧
    sql_node_by_ip [badRow, encodeRow samplePeer] "1.2.3.4"
        = sql_node_by_ip [encodeRow samplePeer] "1.2.3.4" ∧
    sql_all_peers [badRow, encodeRow samplePeer] none
        = Except.ok (List.filterMap decodeRow [badRow, encodeRow samplePeer])) :=
  ⟨rfl, sql_skips_undecodable_rows badRow [encodeRow samplePeer] none
    "enode-bad" "1.2.3.4" rfl⟩

/-- C10.  Storing a record with an empty capability list in the embedded
store and reading it back yields the one-element capability list
containing the empty string, not the empty list: the empty list does not
round-trip through the comma join/split serialization. -/
theorem caps_empty_serializes_to_singleton :
    sql_all_peers (sql_add_peer [] emptyCapsPeer none).1 none
      = Except.ok [{ emptyCapsPeer with capabilities := [""] }] ∧
    ([""] : List String) ≠ [] := by
  exact ⟨rfl, by decide⟩
